import Mathlib

set_option maxHeartbeats 1000000

/-!
Shallow embedding of `src/Heatmap_engine.js` (class `HeatMapEngine`).

JavaScript numbers are modeled as `Option ℚ`: `some q` is an ordinary
finite number with exact rational value `q`, and `none` models NaN.
The modeled code paths can produce NaN (arithmetic on an undefined
argument, or the 0/0 division in `getFloorHeatmap`) but never an
infinity: the only division sites are by the nonzero constants 1000
and `FLOOR_HEIGHT`, and by `maxAccel` inside `getFloorHeatmap`, where
`maxAccel` is a maximum of absolute values that bounds every numerator,
so a nonzero numerator over a zero denominator cannot occur.  Division
by zero is therefore mapped to NaN (`none`), which matches the one
reachable case, 0/0.

Missing (undefined) arguments to `addPoint` are modeled as `none`
inputs.  Timestamps are modeled as plain rationals (the specification
describes them as caller-supplied capture times, always present).
-/

/-- JS Math.abs on a number: NaN-propagating absolute value. -/
@[simp] def jsAbs : Option ℚ → Option ℚ
  | some q => some |q|
  | none => none

/-- JS addition: NaN-propagating. -/
@[simp] def jsAdd : Option ℚ → Option ℚ → Option ℚ
  | some p, some q => some (p + q)
  | _, _ => none

/-- JS subtraction: NaN-propagating. -/
@[simp] def jsSub : Option ℚ → Option ℚ → Option ℚ
  | some p, some q => some (p - q)
  | _, _ => none

/-- JS multiplication: NaN-propagating. -/
@[simp] def jsMul : Option ℚ → Option ℚ → Option ℚ
  | some p, some q => some (p * q)
  | _, _ => none

/-- JS division.  Division by zero yields NaN here; in the modeled
code the only reachable zero-denominator case is 0/0, which is NaN in
JS as well (see the module comment). -/
@[simp] def jsDiv : Option ℚ → Option ℚ → Option ℚ
  | some p, some q => if q = 0 then none else some (p / q)
  | _, _ => none

/-- JS Math.max on two numbers: NaN-propagating. -/
@[simp] def jsMax : Option ℚ → Option ℚ → Option ℚ
  | some p, some q => some (max p q)
  | _, _ => none

/-- JS Math.min on two numbers: NaN-propagating. -/
@[simp] def jsMin : Option ℚ → Option ℚ → Option ℚ
  | some p, some q => some (min p q)
  | _, _ => none

/-- JS Math.round on a rational: round half toward positive infinity. -/
@[simp] def jsRoundQ (q : ℚ) : ℚ := ((⌊q + 1/2⌋ : ℤ) : ℚ)

/-- JS Math.round on a number: NaN-propagating. -/
@[simp] def jsRound : Option ℚ → Option ℚ
  | some q => some (jsRoundQ q)
  | none => none

/-- JS `<` comparison: false whenever an operand is NaN. -/
@[simp] def jsLt : Option ℚ → Option ℚ → Bool
  | some p, some q => decide (p < q)
  | _, _ => false

/-- JS `>` comparison: false whenever an operand is NaN. -/
@[simp] def jsGt (a b : Option ℚ) : Bool := jsLt b a

/-- JS `<=` comparison: false whenever an operand is NaN. -/
@[simp] def jsLe : Option ℚ → Option ℚ → Bool
  | some p, some q => decide (p ≤ q)
  | _, _ => false

/-- JS strict equality `===` on two numbers: NaN compares unequal to
everything, including itself. -/
@[simp] def jsSEq : Option ℚ → Option ℚ → Bool
  | some p, some q => decide (p = q)
  | _, _ => false

/-- Models `v || 0` applied to a possibly-undefined numeric argument:
an undefined argument is coerced to 0, a present number is kept.  (For
a present number the source would also coerce 0 to 0, which is the
identity, so `getD` is faithful on the modeled input space.) -/
@[simp] def orZero (v : Option ℚ) : ℚ := v.getD 0

/-- Constant `FLOOR_HEIGHT` from the constructor: meters per floor. -/
@[simp] def FLOOR_HEIGHT : ℚ := 3

/-- Constant `CAR_WIDTH` from the constructor: meters. -/
@[simp] def CAR_WIDTH : ℚ := 3/2

/-- Constant `CAR_DEPTH` from the constructor: meters. -/
@[simp] def CAR_DEPTH : ℚ := 3/2

/-- Constant `VERTICAL_THRESHOLD` from the constructor. -/
@[simp] def VERTICAL_THRESHOLD : ℚ := 1/2

/-- Constant `FLOOR_TRANSITION_TIME` from the constructor, in ms. -/
@[simp] def FLOOR_TRANSITION_TIME : ℚ := 500

/-- One recorded accelerometer sample, as built by `addPoint`.  The
fields `x`, `y`, `z` hold the coerced (`v || 0`) arguments and are
therefore always actual numbers.  The source stores
`magnitude: Math.sqrt(x*x + y*y + z*z)` computed from the RAW
arguments; we store the exact radicand `magSq` (with `none` for NaN)
instead of the irrational square root.  Since `Math.sqrt` is injective
on the nonnegative reals and maps NaN to NaN, any statement about the
stored magnitude is equivalent to the corresponding statement about
this radicand. -/
structure Sample where
  x : ℚ
  y : ℚ
  z : ℚ
  timestamp : ℚ
  magSq : Option ℚ
  deriving DecidableEq

/-- One trajectory entry, as pushed by `addPoint`.  The source pushes
`duration: 0` and never updates the field afterwards; consumers
recompute durations lazily. -/
structure TrajEntry where
  floor : Option ℚ
  timestamp : ℚ
  duration : ℚ
  deriving DecidableEq

/-- The mutable session state `this.data`.  The source also carries
bookkeeping fields `floors`, `duration`, `startTime`, `endTime`; none
of them is ever written by any method of the class (only `getSummary`
reads `duration`), so they are omitted from the embedding. -/
structure SessionData where
  points : List Sample
  trajectory : List TrajEntry
  currentFloor : Option ℚ
  deriving DecidableEq

/-- The state of a freshly constructed engine (also the state after
`reset()`). -/
def freshData : SessionData :=
  { points := [], trajectory := [], currentFloor := some 0 }

/-- `detectFloor(z)`: pure function of `z` and the current floor. -/
def detectFloor (currentFloor : Option ℚ) (z : Option ℚ) : Option ℚ :=
  if jsLt (jsAbs z) (some VERTICAL_THRESHOLD) then currentFloor
  else
    let verticalDistance := jsDiv (jsMul (jsAbs z) (some FLOOR_TRANSITION_TIME)) (some 1000)
    let floorChange := jsRound (jsDiv verticalDistance (some FLOOR_HEIGHT))
    if jsGt z (some 0) then jsMin (jsAdd currentFloor floorChange) (some 12)
    else jsMax (jsSub currentFloor floorChange) (some 0)

/-- `addPoint(x, y, z, timestamp)`: builds the sample (coercing the
stored coordinates, but feeding the RAW `x`, `y`, `z` into the
magnitude radicand, and the RAW `z` into `detectFloor`, exactly as the
source does), appends it to `points`, and appends a trajectory entry
when the detected floor is strictly unequal (`!==`) to the current
floor.  Returns the sample together with the updated state. -/
def addPoint (s : SessionData) (x y z : Option ℚ) (timestamp : ℚ) :
    Sample × SessionData :=
  let point : Sample :=
    { x := orZero x, y := orZero y, z := orZero z,
      timestamp := timestamp,
      magSq := jsAdd (jsMul x x) (jsAdd (jsMul y y) (jsMul z z)) }
  let detectedFloor := detectFloor s.currentFloor z
  if jsSEq detectedFloor s.currentFloor then
    (point, { s with points := s.points ++ [point] })
  else
    (point,
      { s with
        points := s.points ++ [point],
        currentFloor := detectedFloor,
        trajectory := s.trajectory ++
          [{ floor := detectedFloor, timestamp := timestamp, duration := 0 }] })

/-- A point of `getFloorHeatmap` output.  The source spreads the
sample and adds `normalizedX`, `normalizedY` and
`intensity = Math.min(p.magnitude / 2, 1)`; the intensity involves the
irrational `Math.sqrt` stored in the magnitude and is not modeled
(no claim concerns it). -/
structure PositionedSample where
  point : Sample
  normalizedX : Option ℚ
  normalizedY : Option ℚ
  deriving DecidableEq

/-- Maximum of a list of rationals, as `Math.max(...list)` on a
nonempty spread argument.  The source only evaluates it on a nonempty
list (behind the `floorPoints.length === 0` guard). -/
def listMax : List ℚ → ℚ
  | [] => 0
  | q :: rest => rest.foldl max q

/-- `getFloorHeatmap(floor)`: filters the recorded points by
re-running `detectFloor` on the stored `z` against the LIVE
`currentFloor`, then normalizes the matched points against their own
maximal axis acceleration. -/
def getFloorHeatmap (s : SessionData) (floor : Option ℚ) : List PositionedSample :=
  let floorPoints := s.points.filter
    (fun p => jsSEq (detectFloor s.currentFloor (some p.z)) floor)
  if floorPoints.isEmpty then []
  else
    let maxAccel : ℚ := listMax (floorPoints.map (fun p => max |p.x| |p.y|))
    floorPoints.map (fun p =>
      { point := p,
        normalizedX := jsAdd (jsMul (jsDiv (some p.x) (some maxAccel))
          (some (CAR_WIDTH / 2))) (some (CAR_WIDTH / 2)),
        normalizedY := jsAdd (jsMul (jsDiv (some p.y) (some maxAccel))
          (some (CAR_DEPTH / 2))) (some (CAR_DEPTH / 2)) })

/-- `getFloorName(floor)`.  For the in-range case the source renders
the floor with a template literal; integer floors (the only ones that
reach this branch in reachable sessions) render identically under
`toString` on `ℚ`. -/
def getFloorName (fl : Option ℚ) : String :=
  if jsSEq fl (some 0) then "Car Top (Machine Room)"
  else if jsLe (some 1) fl && jsLe fl (some 12) then
    match fl with
    | some q => "Floor " ++ toString q
    | none => "Unknown"
  else "Unknown"

/-- One entry of the `floorVisits` object of `getVerticalHeatmap`. -/
structure FloorStats where
  floor : ℚ
  floorName : String
  duration : ℚ
  visits : ℕ
  lastVisit : Option ℚ
  deriving DecidableEq

/-- One step of the `forEach` body of `getVerticalHeatmap`: the guard
`if (floorVisits[visit.floor])` succeeds exactly when the floor value
is one of the integer keys 0..12 (property lookup stringifies the
number; NaN and out-of-range floors find no entry and are skipped).
When a following trajectory entry exists its timestamp is passed as
`nextTs` and the inter-entry time is added to the duration. -/
def bumpFloor (stats : List FloorStats) (fl : Option ℚ) (nextTs : Option ℚ)
    (ts : ℚ) : List FloorStats :=
  match fl with
  | none => stats
  | some q =>
    if q.den = 1 ∧ 0 ≤ q.num ∧ q.num ≤ 12 then
      stats.map (fun e =>
        if e.floor = q then
          { e with
            visits := e.visits + 1,
            lastVisit := some ts,
            duration := match nextTs with
              | some nt => e.duration + (nt - ts) / 1000
              | none => e.duration }
        else e)
    else stats

/-- The `forEach` loop of `getVerticalHeatmap`, walking the trajectory
with one-entry lookahead for the duration. -/
def accumVisits (stats : List FloorStats) : List TrajEntry → List FloorStats
  | [] => stats
  | v :: rest =>
    let nextTs : Option ℚ := match rest with
      | [] => none
      | w :: _ => some w.timestamp
    accumVisits (bumpFloor stats v.floor nextTs v.timestamp) rest

/-- The 13 freshly initialized entries of `floorVisits`, floors 0..12
in ascending key order (`Object.values` enumerates the integer-like
keys in ascending numeric order). -/
def initialFloorStats : List FloorStats :=
  (List.range 13).map (fun i : ℕ =>
    { floor := (i : ℚ), floorName := getFloorName (some (i : ℚ)),
      duration := 0, visits := 0, lastVisit := none })

/-- `getVerticalHeatmap()`: all 13 floors, updated by the trajectory
walk. -/
def getVerticalHeatmap (s : SessionData) : List FloorStats :=
  accumVisits initialFloorStats s.trajectory

/-- Stable insertion of one element into a descending-by-duration
list: the element passes over every earlier element whose duration is
at least as large, so elements of equal duration keep their relative
order. -/
def insertByDuration (x : FloorStats) : List FloorStats → List FloorStats
  | [] => [x]
  | y :: ys => if y.duration < x.duration then x :: y :: ys
               else y :: insertByDuration x ys

/-- Stable sort by descending duration, processing the input left to
right.  ECMAScript requires `Array.prototype.sort` to be stable; with
the comparator `(a, b) => b.duration - a.duration` the result is the
unique permutation that is descending in duration and preserves the
input order of duration ties, which is exactly what this insertion
sort computes. -/
def sortByDurationDesc (l : List FloorStats) : List FloorStats :=
  l.foldl (fun acc x => insertByDuration x acc) []

/-- `getWorkflowAnalysis()`: positive-duration floors, sorted by
descending duration (stably, over the ascending floor enumeration of
`getVerticalHeatmap`). -/
def getWorkflowAnalysis (s : SessionData) : List FloorStats :=
  sortByDurationDesc ((getVerticalHeatmap s).filter (fun f => 0 < f.duration))

/-- One step of `getPath` output.  The source also includes
`time: new Date(visit.timestamp).toLocaleTimeString()`, an
environment- and locale-dependent string that is not modeled (no claim
concerns it). -/
structure PathStep where
  order : ℕ
  floor : Option ℚ
  floorName : String
  duration : ℚ
  deriving DecidableEq

/-- The indexed `map` of `getPath`, with one-entry lookahead: the
duration of an entry is the rounded seconds to the next entry, and 0
for the last entry. -/
def pathFrom (i : ℕ) : List TrajEntry → List PathStep
  | [] => []
  | v :: rest =>
    { order := i + 1, floor := v.floor, floorName := getFloorName v.floor,
      duration := match rest with
        | [] => 0
        | w :: _ => jsRoundQ ((w.timestamp - v.timestamp) / 1000) }
      :: pathFrom (i + 1) rest

/-- `getPath()`: chronological path report over the trajectory. -/
def getPath (s : SessionData) : List PathStep := pathFrom 0 s.trajectory

/-- The ordering property claimed for `getWorkflowAnalysis` output:
durations are non-increasing, and floors with equal duration appear in
ascending floor-number order (the stability of the sort over the
ascending floor enumeration). -/
def WorkflowOrder (a b : FloorStats) : Prop :=
  b.duration ≤ a.duration ∧ (a.duration = b.duration → a.floor < b.floor)

/-- The values `detectFloor` can yield in a reachable session: NaN or
a number in the closed interval from 0 to 12. -/
def FloorOk (v : Option ℚ) : Prop :=
  v = none ∨ ∃ c : ℚ, 0 ≤ c ∧ c ≤ 12 ∧ v = some c

/-- A concrete two-transition session: two upward z = 3 samples, at
timestamps 1000 and 2500, producing trajectory entries for floor 1 at
1000 and floor 2 at 2500. -/
def demoSession : SessionData :=
  (addPoint (addPoint freshData (some 0) (some 0) (some 3) 1000).2
    (some 0) (some 0) (some 3) 2500).2

/-- The states reachable from a freshly constructed engine by any
sequence of `addPoint` calls (with possibly-missing coordinate
arguments). -/
inductive Reachable : SessionData → Prop where
  | init : Reachable freshData
  | step (s : SessionData) (x y z : Option ℚ) (t : ℚ) :
      Reachable s → Reachable (addPoint s x y z t).2

example : (addPoint freshData (some 0) (some 0) (some 0) 1000).2.trajectory = [] := by
  norm_num [addPoint, detectFloor, jsLt, jsAbs, jsSEq, orZero, freshData, VERTICAL_THRESHOLD]

example : (addPoint freshData (some 0) (some 0) (some 3) 1000).2.currentFloor = some 1 := by
  norm_num [addPoint, detectFloor, jsLt, jsGt, jsAbs, jsSEq, jsAdd, jsMul, jsDiv, jsMin,
    jsRound, jsRoundQ, orZero, freshData, VERTICAL_THRESHOLD, FLOOR_TRANSITION_TIME,
    FLOOR_HEIGHT]

example : (addPoint freshData none none none 1000).2.currentFloor = none := by
  norm_num [addPoint, detectFloor, jsLt, jsGt, jsAbs, jsSEq, jsAdd, jsSub, jsMul, jsDiv,
    jsMax, jsRound, orZero, freshData, VERTICAL_THRESHOLD]

/-- C1: the claim asserts that after any sequence of addPoint calls,
including calls with missing arguments, currentFloor and every
trajectory floor are integers in the range 0..12.  The code violates
this: addPoint feeds the RAW (possibly undefined) z into detectFloor,
where `Math.abs(undefined)` is NaN, the threshold guard and the `z > 0`
test are both false on NaN, and `Math.max(currentFloor - NaN, 0)` is
NaN, so a single call with a missing z sets currentFloor to NaN and
appends a trajectory entry with floor NaN (`none` in this embedding),
which is not an integer in 0..12. -/
theorem c1_missing_z_breaks_floor_range :
    (addPoint freshData none none none 1000).2.currentFloor = none ∧
    (addPoint freshData none none none 1000).2.trajectory.map TrajEntry.floor = [none] := by
  norm_num [addPoint, detectFloor, jsLt, jsGt, jsAbs, jsSEq, jsAdd, jsSub, jsMul, jsDiv,
    jsMax, jsRound, orZero, freshData, VERTICAL_THRESHOLD]

/-- C2: the claim asserts that the trajectory never contains two
consecutive entries with the same floor value.  The code violates
this: once currentFloor is NaN (after one addPoint with missing z),
the push guard `detectedFloor !== currentFloor` compares NaN with NaN,
which is true in JS, so every further call with missing z appends
another entry whose floor is the same value, NaN.  After two such
calls the trajectory holds two consecutive entries with equal floor. -/
theorem c2_missing_z_breaks_no_adjacent_duplicates :
    ((addPoint (addPoint freshData none none none 1000).2 none none none 2000).2.trajectory.map
      TrajEntry.floor = [none, none]) ∧
    ¬ List.Chain' (fun a b : Option ℚ => a ≠ b)
      ((addPoint (addPoint freshData none none none 1000).2 none none none
        2000).2.trajectory.map TrajEntry.floor) := by
  constructor
  · norm_num [addPoint, detectFloor, jsLt, jsGt, jsAbs, jsSEq, jsAdd, jsSub, jsMul, jsDiv,
      jsMax, jsRound, orZero, freshData, VERTICAL_THRESHOLD]
  · intro h
    rw [show (addPoint (addPoint freshData none none none 1000).2 none none none
        2000).2.trajectory.map TrajEntry.floor = [none, none] by
      norm_num [addPoint, detectFloor, jsLt, jsGt, jsAbs, jsSEq, jsAdd, jsSub, jsMul, jsDiv,
        jsMax, jsRound, orZero, freshData, VERTICAL_THRESHOLD]] at h
    exact (List.chain'_cons.1 h).1 rfl

/-- C5: the claim asserts that the magnitude of each built sample is
the square root of the sum of squares of the COERCED coordinates.  The
code violates this: the source computes
`magnitude: Math.sqrt(x*x + y*y + z*z)` from the RAW arguments on the
line after coercing the stored fields, so a call with a missing x
stores x = 0 but magnitude = NaN.  In the embedding (which stores the
exact radicand, `Math.sqrt` being injective on nonnegative reals and
NaN-preserving) the claim would force magSq = some 25 for the inputs
(missing, 3, 4); the code yields NaN (`none`). -/
theorem c5_magnitude_uses_raw_arguments :
    (addPoint freshData none (some 3) (some 4) 0).1.x = 0 ∧
    (addPoint freshData none (some 3) (some 4) 0).1.y = 3 ∧
    (addPoint freshData none (some 3) (some 4) 0).1.magSq = none ∧
    (addPoint freshData none (some 3) (some 4) 0).1.magSq ≠
      some ((0 : ℚ) ^ 2 + 3 ^ 2 + 4 ^ 2) := by
  refine ⟨?_, ?_, ?_, ?_⟩
  · norm_num [addPoint, detectFloor, freshData]
  · norm_num [addPoint, detectFloor, freshData]
  · norm_num [addPoint, detectFloor, freshData]
  · norm_num [addPoint, detectFloor, freshData]
    simp

/-- C6: the claim asserts that when all matched points of a floor have
zero x and y (so maxAccel is 0), getFloorHeatmap returns points with
normalizedX = normalizedY = CAR_WIDTH / 2 = 0.75.  The code violates
this: it has no maxAccel == 0 branch, so it computes 0 / 0, which is
NaN in JS, and NaN propagates through the normalization arithmetic.
On the session holding the single sample of addPoint(0, 0, 0, 1000),
getFloorHeatmap(0) matches that sample and returns NaN (`none`)
coordinates instead of the required center value 3/4. -/
theorem c6_zero_maxAccel_yields_nan_not_center :
    ((getFloorHeatmap (addPoint freshData (some 0) (some 0) (some 0) 1000).2 (some 0)).map
      (fun e => (e.normalizedX, e.normalizedY)) = [(none, none)]) ∧
    (none : Option ℚ) ≠ some (CAR_WIDTH / 2) := by
  constructor
  · norm_num [getFloorHeatmap, listMax, addPoint, detectFloor, jsLt, jsGt, jsAbs, jsSEq,
      jsAdd, jsSub, jsMul, jsDiv, jsMax, jsRound, orZero, freshData, VERTICAL_THRESHOLD,
      List.filter]
  · simp

/-- C3: for every z with absolute value below the 0.5 threshold,
detectFloor returns the stored currentFloor unchanged, and an addPoint
call with such a z (the session being in a state whose currentFloor is
an actual number, as in every state the data model describes) appends
the sample to points but leaves trajectory and currentFloor unchanged.
In particular addPoint(0, 0, 0, 1000) on a fresh engine leaves the
trajectory empty and currentFloor equal to 0. -/
theorem c3_small_z_leaves_state_unchanged (s : SessionData) (c : ℚ)
    (hc : s.currentFloor = some c) (q : ℚ) (hq : |q| < 1/2) (x y : Option ℚ) (t : ℚ) :
    detectFloor s.currentFloor (some q) = s.currentFloor ∧
    (addPoint s x y (some q) t).2.trajectory = s.trajectory ∧
    (addPoint s x y (some q) t).2.currentFloor = s.currentFloor ∧
    (addPoint s x y (some q) t).2.points = s.points ++ [(addPoint s x y (some q) t).1] := by
  have hd : detectFloor s.currentFloor (some q) = s.currentFloor := by
    have hq' : |q| < (2:ℚ)⁻¹ := by
      rw [show ((2:ℚ)⁻¹) = 1/2 by norm_num]
      exact hq
    simp [detectFloor]
    intro h
    exact absurd h (not_le.2 hq')
  have hd' : detectFloor (some c) (some q) = some c := by rw [← hc]; exact hd
  refine ⟨hd, ?_, ?_, ?_⟩ <;>
    simp [addPoint, hc, hd']

/-- Witness for C3 at the concrete scenario of the specification:
addPoint(0, 0, 0, 1000) on a fresh engine. -/
theorem c3_small_z_leaves_state_unchanged_witness :
    detectFloor freshData.currentFloor (some 0) = freshData.currentFloor ∧
    (addPoint freshData (some 0) (some 0) (some 0) 1000).2.trajectory = freshData.trajectory ∧
    (addPoint freshData (some 0) (some 0) (some 0) 1000).2.currentFloor =
      freshData.currentFloor ∧
    (addPoint freshData (some 0) (some 0) (some 0) 1000).2.points =
      freshData.points ++ [(addPoint freshData (some 0) (some 0) (some 0) 1000).1] :=
  c3_small_z_leaves_state_unchanged freshData 0 rfl 0 (by norm_num) (some 0) (some 0) 1000

/-- The value detectFloor computes in its upward branch. -/
theorem detectFloor_up (c z : ℚ) (hz : 1/2 ≤ z) :
    detectFloor (some c) (some z) =
      some (min (c + jsRoundQ (z * FLOOR_TRANSITION_TIME / 1000 / FLOOR_HEIGHT)) 12) := by
  have h0 : (0 : ℚ) < z := lt_of_lt_of_le (by norm_num) hz
  have habs : |z| = z := abs_of_nonneg h0.le
  have hnlt : ¬ (z < 1/2) := not_lt.2 hz
  simp [detectFloor, habs, h0]
  intro h
  exact absurd h (by norm_num at hnlt ⊢; linarith)

/-- The value detectFloor computes in its downward branch. -/
theorem detectFloor_down (c z : ℚ) (hz : z ≤ -(1/2)) :
    detectFloor (some c) (some z) =
      some (max (c - jsRoundQ (-z * FLOOR_TRANSITION_TIME / 1000 / FLOOR_HEIGHT)) 0) := by
  have h0 : z < 0 := lt_of_le_of_lt hz (by norm_num)
  have habs : |z| = -z := abs_of_neg h0
  have hnlt : ¬ (-z < 1/2) := not_lt.2 (by linarith)
  have hngt : ¬ (0 < z) := not_lt.2 h0.le
  simp [detectFloor, habs, hngt]
  intro h
  exact absurd h (by norm_num at hnlt ⊢; linarith)

/-- jsRoundQ is monotone. -/
theorem jsRoundQ_mono {a b : ℚ} (h : a ≤ b) : jsRoundQ a ≤ jsRoundQ b := by
  unfold jsRoundQ
  exact_mod_cast Int.floor_le_floor (by linarith)

/-- C4: for every fixed (numeric) currentFloor c and every z at or
above the 0.5 threshold, detectFloor returns a number that is at most
12 and is monotonically non-decreasing in z; and for every z at or
below -0.5 it returns a number that is at least 0. -/
theorem c4_detectFloor_clamped_and_monotone (c z z' : ℚ) :
    (1/2 ≤ z → z ≤ z' →
      ∃ d d' : ℚ, detectFloor (some c) (some z) = some d ∧
        detectFloor (some c) (some z') = some d' ∧ d ≤ d' ∧ d ≤ 12 ∧ d' ≤ 12) ∧
    (z ≤ -(1/2) → ∃ e : ℚ, detectFloor (some c) (some z) = some e ∧ 0 ≤ e) := by
  constructor
  · intro hz hzz
    refine ⟨_, _, detectFloor_up c z hz, detectFloor_up c z' (hz.trans hzz), ?_, ?_, ?_⟩
    · refine min_le_min (add_le_add_left (jsRoundQ_mono ?_) c) le_rfl
      rw [FLOOR_TRANSITION_TIME, FLOOR_HEIGHT]
      linarith
    · exact min_le_right _ _
    · exact min_le_right _ _
  · intro hz
    exact ⟨_, detectFloor_down c z hz, le_max_right _ _⟩

/-- Witness for C4: concrete evaluations at currentFloor 0 with
z = 1/2 and 3 for the upward clauses and z = -3 for the downward
clause. -/
theorem c4_detectFloor_clamped_and_monotone_witness :
    (∃ d d' : ℚ, detectFloor (some 0) (some (1/2)) = some d ∧
      detectFloor (some 0) (some 3) = some d' ∧ d ≤ d' ∧ d ≤ 12 ∧ d' ≤ 12) ∧
    (∃ e : ℚ, detectFloor (some 0) (some (-3)) = some e ∧ 0 ≤ e) :=
  ⟨(c4_detectFloor_clamped_and_monotone 0 (1/2) 3).1 (by norm_num) (by norm_num),
   (c4_detectFloor_clamped_and_monotone 0 (-3) 0).2 (by norm_num)⟩

/-- detectFloor on a NaN z is NaN for a numeric current floor, and
returns the current floor for z below the threshold. -/
theorem detectFloor_nan_z (cf : Option ℚ) : detectFloor cf none = cf ∨ detectFloor cf none = none := by
  cases cf with
  | none => right; rfl
  | some c => right; rfl

/-- detectFloor on a NaN current floor is NaN. -/
theorem detectFloor_none_cf (z : Option ℚ) : detectFloor none z = none := by
  cases z with
  | none => rfl
  | some q =>
    by_cases hq : |q| < VERTICAL_THRESHOLD
    · simp only [detectFloor]
      rw [if_pos (by simpa using hq)]
    · simp only [detectFloor]
      rw [if_neg (by simpa using hq)]
      split <;> rfl

/-- The small-z branch of detectFloor, for any current floor. -/
theorem detectFloor_small (cf : Option ℚ) (q : ℚ) (hq : |q| < VERTICAL_THRESHOLD) :
    detectFloor cf (some q) = cf := by
  simp only [detectFloor]
  rw [if_pos (by simpa using hq)]

/-- The upward branch of detectFloor, for any current floor. -/
theorem detectFloor_eq_up (cf : Option ℚ) (q : ℚ) (hq : ¬ (|q| < VERTICAL_THRESHOLD))
    (h2 : (0:ℚ) < q) :
    detectFloor cf (some q) =
      jsMin (jsAdd cf (some (jsRoundQ (|q| * FLOOR_TRANSITION_TIME / 1000 / FLOOR_HEIGHT))))
        (some 12) := by
  rw [detectFloor]
  rw [if_neg (by simpa using hq)]
  simp only [jsAbs, jsGt, jsLt]
  rw [if_pos (by simpa using h2)]
  norm_num

/-- The downward branch of detectFloor, for any current floor. -/
theorem detectFloor_eq_down (cf : Option ℚ) (q : ℚ) (hq : ¬ (|q| < VERTICAL_THRESHOLD))
    (h2 : ¬ ((0:ℚ) < q)) :
    detectFloor cf (some q) =
      jsMax (jsSub cf (some (jsRoundQ (|q| * FLOOR_TRANSITION_TIME / 1000 / FLOOR_HEIGHT))))
        (some 0) := by
  rw [detectFloor]
  rw [if_neg (by simpa using hq)]
  simp only [jsAbs, jsGt, jsLt]
  rw [if_neg (by simpa using h2)]
  norm_num

/-- The rounded floor change is nonnegative. -/
theorem jsRoundQ_nonneg (v : ℚ) (hv : 0 ≤ v) : 0 ≤ jsRoundQ v := by
  rw [jsRoundQ]
  exact_mod_cast Int.floor_nonneg.2 (by linarith)

/-- detectFloor maps a NaN-or-in-range current floor to a
NaN-or-in-range result, for every z. -/
theorem detectFloor_floorOk (cf z : Option ℚ) (h : FloorOk cf) :
    FloorOk (detectFloor cf z) := by
  rcases h with h | ⟨c, hc0, hc12, rfl⟩
  · rw [h]
    left
    exact detectFloor_none_cf z
  · cases z with
    | none => left; rfl
    | some q =>
      by_cases hq : |q| < VERTICAL_THRESHOLD
      · right
        exact ⟨c, hc0, hc12, detectFloor_small (some c) q hq⟩
      · have hr : 0 ≤ jsRoundQ (|q| * FLOOR_TRANSITION_TIME / 1000 / FLOOR_HEIGHT) := by
          refine jsRoundQ_nonneg _ ?_
          have : (0:ℚ) ≤ |q| := abs_nonneg q
          rw [FLOOR_TRANSITION_TIME, FLOOR_HEIGHT]
          positivity
        by_cases h2 : (0:ℚ) < q
        · rw [detectFloor_eq_up (some c) q hq h2]
          right
          refine ⟨_, ?_, ?_, rfl⟩
          · exact le_min (by linarith) (by norm_num)
          · exact min_le_right _ _
        · rw [detectFloor_eq_down (some c) q hq h2]
          right
          refine ⟨_, ?_, ?_, rfl⟩
          · exact le_max_right _ _
          · exact max_le (by linarith) (by norm_num)

/-- In every reachable session the current floor is NaN or a number in
the interval from 0 to 12. -/
theorem reachable_floorOk (s : SessionData) (h : Reachable s) : FloorOk s.currentFloor := by
  induction h with
  | init =>
    right
    exact ⟨0, le_refl 0, by norm_num, rfl⟩
  | step s x y z t hs ih =>
    rw [addPoint]
    split
    · exact ih
    · exact detectFloor_floorOk s.currentFloor z ih

/-- C7: getFloorHeatmap returns exactly the recorded points, in
insertion order, whose floor as recomputed by detectFloor against the
LIVE currentFloor strictly equals the requested floor (it does not
replay history); it returns the empty sequence when no point matches,
and on every reachable session it returns the empty sequence for any
requested floor outside the interval from 0 to 12, such as 99. -/
theorem c7_floor_heatmap_filters_live_floor (s : SessionData) (f : Option ℚ) :
    ((getFloorHeatmap s f).map PositionedSample.point =
      s.points.filter (fun p => jsSEq (detectFloor s.currentFloor (some p.z)) f)) ∧
    (s.points.filter (fun p => jsSEq (detectFloor s.currentFloor (some p.z)) f) = [] →
      getFloorHeatmap s f = []) ∧
    (Reachable s → ∀ q : ℚ, f = some q → (q < 0 ∨ 12 < q) → getFloorHeatmap s f = []) := by
  have h1 : (getFloorHeatmap s f).map PositionedSample.point =
      s.points.filter (fun p => jsSEq (detectFloor s.currentFloor (some p.z)) f) := by
    rw [getFloorHeatmap]
    by_cases he :
        (s.points.filter (fun p => jsSEq (detectFloor s.currentFloor (some p.z)) f)).isEmpty
    · rw [if_pos he]
      rw [List.isEmpty_iff.1 he]
      rfl
    · rw [if_neg he]
      rw [List.map_map]
      exact List.map_id _
  have h2 : s.points.filter (fun p => jsSEq (detectFloor s.currentFloor (some p.z)) f) = [] →
      getFloorHeatmap s f = [] := by
    intro hnil
    have := h1
    rw [hnil] at this
    exact List.map_eq_nil_iff.1 this
  refine ⟨h1, h2, ?_⟩
  intro hr q hf hq
  refine h2 ?_
  rw [List.filter_eq_nil_iff]
  intro p _
  rcases detectFloor_floorOk s.currentFloor (some p.z) (reachable_floorOk s hr) with hn |
    ⟨c, hc0, hc12, hc⟩
  · rw [hn, hf]
    simp
  · rw [hc, hf]
    simp only [jsSEq, decide_eq_true_eq]
    intro hcq
    rcases hq with hq | hq
    · rw [hcq] at hc0; linarith
    · rw [hcq] at hc12; linarith

/-- Witness for C7 on a concrete reachable one-point session and the
out-of-range floor 99 from the specification scenario. -/
theorem c7_floor_heatmap_filters_live_floor_witness :
    ((getFloorHeatmap (addPoint freshData (some 1) (some 2) (some 0) 5).2 (some 99)).map
      PositionedSample.point =
      (addPoint freshData (some 1) (some 2) (some 0) 5).2.points.filter
        (fun p => jsSEq (detectFloor (addPoint freshData (some 1) (some 2) (some 0) 5).2.currentFloor
          (some p.z)) (some 99))) ∧
    getFloorHeatmap (addPoint freshData (some 1) (some 2) (some 0) 5).2 (some 99) = [] :=
  ⟨(c7_floor_heatmap_filters_live_floor (addPoint freshData (some 1) (some 2) (some 0) 5).2
      (some 99)).1,
   (c7_floor_heatmap_filters_live_floor (addPoint freshData (some 1) (some 2) (some 0) 5).2
      (some 99)).2.2
      (Reachable.step freshData (some 1) (some 2) (some 0) 5 Reachable.init)
      99 rfl (by norm_num)⟩

/-- bumpFloor changes only duration, visits and lastVisit: the floor
and floorName columns (and hence the length) are preserved. -/
theorem bumpFloor_map_shape (stats : List FloorStats) (fl : Option ℚ) (nextTs : Option ℚ)
    (ts : ℚ) :
    (bumpFloor stats fl nextTs ts).map (fun e => (e.floor, e.floorName)) =
      stats.map (fun e => (e.floor, e.floorName)) := by
  cases fl with
  | none => rfl
  | some q =>
    simp only [bumpFloor]
    by_cases h : q.den = 1 ∧ 0 ≤ q.num ∧ q.num ≤ 12
    · rw [if_pos h, List.map_map]
      refine List.map_congr_left ?_
      intro e _
      by_cases he : e.floor = q
      · simp [he]
      · simp [he]
    · rw [if_neg h]

/-- The trajectory walk of getVerticalHeatmap preserves the floor and
floorName columns of the stats list. -/
theorem accumVisits_map_shape (traj : List TrajEntry) :
    ∀ stats : List FloorStats,
      (accumVisits stats traj).map (fun e => (e.floor, e.floorName)) =
        stats.map (fun e => (e.floor, e.floorName)) := by
  induction traj with
  | nil => intro stats; rfl
  | cons v rest ih =>
    intro stats
    simp only [accumVisits]
    rw [ih, bumpFloor_map_shape]

/-- The floor and floorName columns of getVerticalHeatmap are the 13
ascending floors 0..12 with their names, for every session. -/
theorem vertical_shape (s : SessionData) :
    (getVerticalHeatmap s).map (fun e => (e.floor, e.floorName)) =
      (List.range 13).map (fun i : ℕ => ((i : ℚ), getFloorName (some (i : ℚ)))) := by
  rw [getVerticalHeatmap, accumVisits_map_shape, initialFloorStats, List.map_map]
  rfl

/-- C8: getVerticalHeatmap always returns exactly 13 entries, one per
floor 0 through 12 in ascending order, each carrying that floor number
and its floor name (together with duration, visits and lastVisit
fields), regardless of the trajectory contents; and on the empty
session every entry has duration 0, visits 0 and no lastVisit. -/
theorem c8_vertical_heatmap_always_13_floors (s : SessionData) :
    (getVerticalHeatmap s).length = 13 ∧
    (getVerticalHeatmap s).map (fun e => (e.floor, e.floorName)) =
      (List.range 13).map (fun i : ℕ => ((i : ℚ), getFloorName (some (i : ℚ)))) ∧
    getVerticalHeatmap freshData = (List.range 13).map (fun i : ℕ =>
      { floor := (i : ℚ), floorName := getFloorName (some (i : ℚ)),
        duration := 0, visits := 0, lastVisit := none }) := by
  refine ⟨?_, vertical_shape s, rfl⟩
  have h := congrArg List.length (vertical_shape s)
  simpa using h

/-- Membership in an insertByDuration result. -/
theorem mem_insertByDuration (x a : FloorStats) (l : List FloorStats) :
    a ∈ insertByDuration x l ↔ a = x ∨ a ∈ l := by
  induction l with
  | nil => simp [insertByDuration]
  | cons y ys ih =>
    simp only [insertByDuration]
    by_cases h : y.duration < x.duration
    · rw [if_pos h]
      simp [List.mem_cons]
    · rw [if_neg h]
      simp only [List.mem_cons, ih]
      tauto

/-- Inserting an element whose floor is above every floor already in a
WorkflowOrder-sorted list keeps the list WorkflowOrder-sorted. -/
theorem insertByDuration_pairwise (x : FloorStats) (l : List FloorStats)
    (hl : l.Pairwise WorkflowOrder) (hfl : ∀ y ∈ l, y.floor < x.floor) :
    (insertByDuration x l).Pairwise WorkflowOrder := by
  induction l with
  | nil => simp [insertByDuration, WorkflowOrder]
  | cons y ys ih =>
    rw [List.pairwise_cons] at hl
    obtain ⟨hy, hys⟩ := hl
    simp only [insertByDuration]
    by_cases h : y.duration < x.duration
    · rw [if_pos h]
      refine List.pairwise_cons.2 ⟨?_, List.pairwise_cons.2 ⟨hy, hys⟩⟩
      intro z hz
      rcases List.mem_cons.1 hz with rfl | hz
      · exact ⟨h.le, fun he => absurd (he ▸ h) (lt_irrefl _)⟩
      · have h1 := (hy z hz).1
        exact ⟨by linarith, fun he => by linarith⟩
    · rw [if_neg h]
      have hx : x.duration ≤ y.duration := not_lt.1 h
      refine List.pairwise_cons.2
        ⟨?_, ih hys (fun z hz => hfl z (List.mem_cons_of_mem y hz))⟩
      intro z hz
      rcases (mem_insertByDuration x z ys).1 hz with rfl | hz
      · exact ⟨hx, fun _ => hfl y (List.mem_cons_self y ys)⟩
      · exact hy z hz

/-- Folding insertByDuration over a list whose floors are strictly
ascending produces a WorkflowOrder-sorted list, given the accumulator
is sorted and all its floors lie below the floors still to come. -/
theorem foldl_insert_pairwise (l : List FloorStats) :
    ∀ acc : List FloorStats, acc.Pairwise WorkflowOrder →
      (∀ y ∈ acc, ∀ x ∈ l, y.floor < x.floor) →
      l.Pairwise (fun a b => a.floor < b.floor) →
      (l.foldl (fun acc x => insertByDuration x acc) acc).Pairwise WorkflowOrder := by
  induction l with
  | nil =>
    intro acc h _ _
    simpa using h
  | cons x rest ih =>
    intro acc hacc hcross hl
    rw [List.foldl_cons]
    rw [List.pairwise_cons] at hl
    refine ih _
      (insertByDuration_pairwise x acc hacc
        (fun y hy => hcross y hy x (List.mem_cons_self x rest))) ?_ hl.2
    intro y hy z hz
    rcases (mem_insertByDuration x y acc).1 hy with rfl | hy
    · exact hl.1 z hz
    · exact hcross y hy z (List.mem_cons_of_mem x hz)

/-- The floors of getVerticalHeatmap are strictly ascending. -/
theorem vertical_floors_ascending (s : SessionData) :
    (getVerticalHeatmap s).Pairwise (fun a b => a.floor < b.floor) := by
  have h13 : ((List.range 13).map
      (fun i : ℕ => ((i : ℚ), getFloorName (some (i : ℚ))))).Pairwise
      (fun a b : ℚ × String => a.1 < b.1) := by
    rw [List.pairwise_map]
    refine List.Pairwise.imp ?_ (List.pairwise_lt_range 13)
    intro a b h
    show ((a : ℚ)) < ((b : ℚ))
    exact_mod_cast h
  have h2 : ((getVerticalHeatmap s).map (fun e => (e.floor, e.floorName))).Pairwise
      (fun a b : ℚ × String => a.1 < b.1) := by
    rw [vertical_shape s]
    exact h13
  have h3 := List.pairwise_map.1 h2
  exact h3.imp (fun h => h)

/-- C10: whenever two floors appear in getWorkflowAnalysis output (all
entries have positive accumulated duration), durations are listed in
non-increasing order, and any two entries with EQUAL duration appear
in ascending floor-number order: the descending-by-duration stable
sort preserves the ascending floor 0..12 enumeration produced by
getVerticalHeatmap on ties. -/
theorem c10_workflow_ties_listed_ascending (s : SessionData) :
    (getWorkflowAnalysis s).Pairwise WorkflowOrder := by
  rw [getWorkflowAnalysis, sortByDurationDesc]
  refine foldl_insert_pairwise _ [] List.Pairwise.nil (by simp) ?_
  exact List.Pairwise.filter _ (vertical_floors_ascending s)

/-- getPath produces one step per trajectory entry. -/
theorem pathFrom_length (k : ℕ) (l : List TrajEntry) : (pathFrom k l).length = l.length := by
  induction l generalizing k with
  | nil => rfl
  | cons v rest ih => simp [pathFrom, ih]

/-- The step of pathFrom at index i: 1-based order offset by the
start index, the floor data of the trajectory entry, and the rounded
seconds to the following entry (0 when there is none). -/
theorem pathFrom_get (l : List TrajEntry) :
    ∀ (k i : ℕ) (h : i < l.length),
      (pathFrom k l).get? i = some
        { order := k + i + 1,
          floor := (l.get ⟨i, h⟩).floor,
          floorName := getFloorName ((l.get ⟨i, h⟩).floor),
          duration := (match l.get? (i + 1) with
            | some w => jsRoundQ ((w.timestamp - (l.get ⟨i, h⟩).timestamp) / 1000)
            | none => 0) } := by
  induction l with
  | nil =>
    intro k i h
    exact absurd h (by simp)
  | cons v rest ih =>
    intro k i h
    cases i with
    | zero =>
      cases rest with
      | nil => simp [pathFrom]
      | cons w rs => simp [pathFrom]
    | succ j =>
      have hj : j < rest.length := by simpa using h
      simp only [pathFrom, List.get?_cons_succ, List.get_cons_succ]
      rw [ih (k + 1) j hj]
      congr 2
      omega

/-- C9 (amended): getPath maps the trajectory, in order, to steps
whose order field is 1-based, whose floor and floorName come from the
trajectory entry, and whose duration for entry i is the seconds to the
next trajectory entry ROUNDED to the nearest integer by Math.round
(the source applies Math.round before storing the duration), with
duration 0 for the last entry. -/
theorem c9_path_one_based_rounded_durations (s : SessionData) (i : ℕ)
    (h : i < s.trajectory.length) :
    (getPath s).length = s.trajectory.length ∧
    (getPath s).get? i = some
      { order := i + 1,
        floor := (s.trajectory.get ⟨i, h⟩).floor,
        floorName := getFloorName ((s.trajectory.get ⟨i, h⟩).floor),
        duration := (match s.trajectory.get? (i + 1) with
          | some w => jsRoundQ ((w.timestamp - (s.trajectory.get ⟨i, h⟩).timestamp) / 1000)
          | none => 0) } := by
  refine ⟨pathFrom_length 0 s.trajectory, ?_⟩
  have hh := pathFrom_get s.trajectory 0 i h
  simpa [getPath] using hh

/-- Counterexample to C9 as stated: on the two-transition demo session
(floor changes at timestamps 1000 and 2500) the first step should have
duration (2500 - 1000) / 1000 = 1.5 seconds by the claim, but the code
stores Math.round(1.5) = 2. -/
theorem c9_duration_rounded_counterexample :
    (getPath demoSession).map (fun st => (st.order, st.duration)) = [(1, 2), (2, 0)] ∧
    ((2 : ℚ) ≠ (2500 - 1000) / 1000) := by
  constructor
  · norm_num [demoSession, getPath, pathFrom, addPoint, detectFloor, freshData]
  · norm_num

/-- Witness for the amended C9 on the demo session at index 0. -/
theorem c9_path_one_based_rounded_durations_witness :
    (getPath demoSession).length = demoSession.trajectory.length ∧
    (getPath demoSession).get? 0 = some
      { order := 1, floor := some 1, floorName := getFloorName (some 1), duration := 2 } := by
  have h0 : 0 < demoSession.trajectory.length := by
    norm_num [demoSession, addPoint, detectFloor, freshData]
  obtain ⟨h1, h2⟩ := c9_path_one_based_rounded_durations demoSession 0 h0
  refine ⟨h1, ?_⟩
  rw [h2]
  norm_num [demoSession, addPoint, detectFloor, freshData]
